import Mathlib

/-!
Shallow embedding of the `numstat` descriptive-statistics calculator
(src/numstat.c) and verification of its specification.

Doubles are modelled as exact rationals (`ℚ`); `sqrt` maps to `Real.sqrt`.
Where NaN behaviour is at stake (the min/max tracking of `calculate_stats`,
lines 195-206) a dedicated carrier `EDouble` with an explicit NaN element is
used, whose comparisons mirror IEEE-754 (`NaN` never satisfies `<` or `>`).
The input stream consumed by `fscanf(file, "%lf", ...)` is modelled as a list
of parse attempts: `some v` for a token that parses as a number, `none` for a
malformed token; the end of the list is the end of the stream.
-/

namespace Numstat

/-- Configuration structure (numstat.c lines 7-11).  `json_output` is an `int`
used as a boolean, `precision` an `int`, `input_file` a possibly-NULL string. -/
structure Config where
  json_output : Bool
  precision : ℤ
  input_file : Option String
deriving DecidableEq

/-- Default configuration `{0, 4, NULL}` from line 39 of main. -/
def defaultConfig : Config := { json_output := false, precision := 4, input_file := none }

/-- Whitespace characters recognised by C `isspace` (used by `atoi`). -/
def is_space_char (c : Char) : Bool :=
  c = ' ' ∨ c = '\t' ∨ c = '\n' ∨ c = '\x0b' ∨ c = '\x0c' ∨ c = '\r'

/-- Value of a (decimal) digit string, most significant digit first. -/
def atoi_digits (cs : List Char) : ℤ :=
  cs.foldl (fun acc c => 10 * acc + ((c.toNat : ℤ) - 48)) 0

/-- Model of C `atoi`: skip leading whitespace, optional sign, then the longest
prefix of decimal digits; a string with no digit prefix yields `0`.
(Overflow of the C `int` range is outside the inputs considered here.) -/
def atoi (s : String) : ℤ :=
  let cs := s.data.dropWhile is_space_char
  match cs with
  | '-' :: rest => - atoi_digits (rest.takeWhile Char.isDigit)
  | '+' :: rest => atoi_digits (rest.takeWhile Char.isDigit)
  | _ => atoi_digits (cs.takeWhile Char.isDigit)

/-- Outcome of argument parsing: normal completion with a configuration,
`exit(0)` after printing help, or `exit(1)` with an error message. -/
inductive ArgResult where
  | ok (config : Config)
  | helpExit
  | errorExit (msg : String)
deriving DecidableEq

/-- Warning text emitted for an out-of-range precision (line 124). -/
def precisionWarning : String :=
  "Warning: Precision should be between 0 and 10. Using default (4)."

/-- Embedding of `parse_args` (numstat.c lines 113-144) as a recursion over the
argument list (argv[1..]).  The first component collects the warnings printed
to stderr, in order; the second is the outcome. -/
def parse_args : Config → List String → List String × ArgResult
  | config, [] => ([], ArgResult.ok config)
  | config, arg :: rest =>
    if arg = "-h" ∨ arg = "--help" then ([], ArgResult.helpExit)
    else if arg = "-j" ∨ arg = "--json" then
      parse_args { config with json_output := true } rest
    else if arg = "-p" ∨ arg = "--precision" then
      match rest with
      | [] => ([], ArgResult.errorExit "-p requires a number argument")
      | value :: rest2 =>
        let p := atoi value
        if p < 0 ∨ 10 < p then
          let r := parse_args { config with precision := 4 } rest2
          (precisionWarning :: r.1, r.2)
        else
          parse_args { config with precision := p } rest2
    else if arg.data.head? = some '-' then
      ([], ArgResult.errorExit ("Unknown option " ++ arg))
    else if config.input_file.isSome then
      ([], ArgResult.errorExit "Multiple input files specified")
    else
      parse_args { config with input_file := some arg } rest

/-- Embedding of `read_numbers` (numstat.c lines 146-172) over the token-stream
model: the `while (fscanf(file, "%lf", &num) == 1)` loop appends each
successfully parsed value and stops at the first failed parse (malformed token
`none`, or end of stream).  Reallocation is modelled as always succeeding; the
allocation-failure path is a separate outcome in `main_result`. -/
def read_numbers : List (Option ℚ) → List ℚ
  | [] => []
  | none :: _ => []
  | some v :: rest => v :: read_numbers rest

/-- Statistics structure (numstat.c lines 14-26). -/
@[ext]
structure Stats where
  count : ℕ
  sum : ℚ
  mean : ℚ
  min : ℚ
  max : ℚ
  range : ℚ
  median : ℚ
  q1 : ℚ
  q3 : ℚ
  variance : ℚ
  stddev : ℝ

/-- Embedding of `compare_double` (numstat.c lines 174-177):
`(diff > 0) - (diff < 0)` on `diff = a - b`, returning -1, 0, or 1. -/
def compare_double (a b : ℚ) : ℤ :=
  (if 0 < a - b then 1 else 0) - (if a - b < 0 then 1 else 0)

/-- The `qsort(values, count, sizeof(double), compare_double)` call of line 221
sorts ascending with respect to the total order induced by `compare_double`
(which on `ℚ` is exactly `≤`, see `compare_double_nonpos_iff`); it is modelled
as a sort by `≤`. -/
def sortQ (values : List ℚ) : List ℚ :=
  values.insertionSort (· ≤ ·)

/-- Embedding of `get_percentile` (numstat.c lines 179-193).  The C cast
`(size_t)index` truncates toward zero, which for the non-negative indices
arising from a percentile fraction `p ≥ 0` is `Nat.floor`. -/
def get_percentile (sorted_values : List ℚ) (percentile : ℚ) : ℚ :=
  if sorted_values.length = 0 then 0
  else if sorted_values.length = 1 then sorted_values.headD 0
  else
    let index : ℚ := percentile * ((sorted_values.length : ℚ) - 1)
    let lower : ℕ := Nat.floor index
    let upper : ℕ := lower + 1
    if sorted_values.length ≤ upper then
      sorted_values.getD (sorted_values.length - 1) 0
    else
      let weight : ℚ := index - (lower : ℚ)
      sorted_values.getD lower 0 * (1 - weight) + sorted_values.getD upper 0 * weight

/-- Embedding of `calculate_stats` (numstat.c lines 195-227) over exact
rationals.  The code requires `count ≥ 1` (it reads `values[0]`); the `headD 0`
default is never exercised by any theorem below, which all assume a non-empty
input.  `stddev = sqrt(variance)` lives in `ℝ`. -/
noncomputable def calculate_stats (values : List ℚ) : Stats :=
  let count := values.length
  let sum := values.foldl (fun acc v => acc + v) 0
  let minVal := values.foldl (fun m v => if v < m then v else m) (values.headD 0)
  let maxVal := values.foldl (fun m v => if v > m then v else m) (values.headD 0)
  let mean := sum / (count : ℚ)
  let range := maxVal - minVal
  let variance := values.foldl (fun acc v => acc + (v - mean) * (v - mean)) 0 / (count : ℚ)
  let stddev := Real.sqrt (variance : ℝ)
  let sorted := sortQ values
  { count := count, sum := sum, mean := mean, min := minVal, max := maxVal,
    range := range,
    median := get_percentile sorted 0.50,
    q1 := get_percentile sorted 0.25,
    q3 := get_percentile sorted 0.75,
    variance := variance, stddev := stddev }

/-- One line of program output.  `header` is the `Statistics for %zu numbers:`
line, `intLine` a line whose numeric payload is printed with `%zu` (a bare
integer), `numLine` a line whose payload is printed with `%.*f` (the given
number of digits after the decimal point); `openBrace`/`closeBrace` are the
delimiter lines of the JSON object. -/
inductive OutLine where
  | header (count : ℕ)
  | intLine (label : String) (value : ℕ)
  | numLine (label : String) (prec : ℕ) (value : ℝ)
  | openBrace
  | closeBrace

/-- Embedding of `print_stats_text` (numstat.c lines 229-240). -/
def print_stats_text (stats : Stats) (precision : ℕ) : List OutLine :=
  [ OutLine.header stats.count,
    OutLine.numLine "Sum" precision (stats.sum : ℝ),
    OutLine.numLine "Mean" precision (stats.mean : ℝ),
    OutLine.numLine "Median" precision (stats.median : ℝ),
    OutLine.numLine "Minimum" precision (stats.min : ℝ),
    OutLine.numLine "Maximum" precision (stats.max : ℝ),
    OutLine.numLine "Range" precision (stats.range : ℝ),
    OutLine.numLine "Q1" precision (stats.q1 : ℝ),
    OutLine.numLine "Q3" precision (stats.q3 : ℝ),
    OutLine.numLine "StdDev" precision stats.stddev ]

/-- Embedding of `print_stats_json` (numstat.c lines 242-255). -/
def print_stats_json (stats : Stats) (precision : ℕ) : List OutLine :=
  [ OutLine.openBrace,
    OutLine.intLine "count" stats.count,
    OutLine.numLine "sum" precision (stats.sum : ℝ),
    OutLine.numLine "mean" precision (stats.mean : ℝ),
    OutLine.numLine "median" precision (stats.median : ℝ),
    OutLine.numLine "min" precision (stats.min : ℝ),
    OutLine.numLine "max" precision (stats.max : ℝ),
    OutLine.numLine "range" precision (stats.range : ℝ),
    OutLine.numLine "q1" precision (stats.q1 : ℝ),
    OutLine.numLine "q3" precision (stats.q3 : ℝ),
    OutLine.numLine "stddev" precision stats.stddev,
    OutLine.closeBrace ]

/-- The numeric payload a line displays: `Sum.inl` a bare integer, `Sum.inr` a
value formatted with decimals; delimiter lines carry none. -/
def lineValue : OutLine → Option (ℕ ⊕ ℝ)
  | OutLine.header n => some (Sum.inl n)
  | OutLine.intLine _ n => some (Sum.inl n)
  | OutLine.numLine _ _ v => some (Sum.inr v)
  | OutLine.openBrace => none
  | OutLine.closeBrace => none

/-- The decimal-digit count a line is formatted with, when it has one. -/
def linePrec : OutLine → Option ℕ
  | OutLine.numLine _ p _ => some p
  | _ => none

/-- A labeled field line (as opposed to the header or a JSON delimiter). -/
def isLabeledLine : OutLine → Bool
  | OutLine.intLine _ _ => true
  | OutLine.numLine _ _ _ => true
  | _ => false

/-- Outcome of `main` after `read_numbers` returns (numstat.c lines 56-87). -/
inductive MainOutcome where
  | allocFailure
  | noValidNumbers
  | success (stats : Stats)

/-- Embedding of the post-read portion of `main` (lines 56-87): a NULL return
from `read_numbers` (allocation failure) is reported first; then a zero count
is reported as "No valid numbers found in input"; only otherwise is
`calculate_stats` invoked. -/
noncomputable def main_result (allocOk : Bool) (tokens : List (Option ℚ)) : MainOutcome :=
  if allocOk = false then MainOutcome.allocFailure
  else
    let values := read_numbers tokens
    if values.length = 0 then MainOutcome.noValidNumbers
    else MainOutcome.success (calculate_stats values)

/-- Process exit status for each outcome of `main` (lines 66, 72, 87). -/
def exit_code : MainOutcome → ℕ
  | MainOutcome.allocFailure => 1
  | MainOutcome.noValidNumbers => 1
  | MainOutcome.success _ => 0

/-- A double extended with NaN, for the claims about IEEE-754 comparison
semantics in the min/max tracking. -/
inductive EDouble where
  | fin (val : ℚ)
  | nan
deriving DecidableEq

/-- IEEE-754 `<` on the NaN-extended doubles: any comparison involving NaN is
false. -/
def eltLt : EDouble → EDouble → Bool
  | EDouble.fin a, EDouble.fin b => decide (a < b)
  | _, _ => false

/-- IEEE-754 `>` on the NaN-extended doubles: any comparison involving NaN is
false. -/
def eltGt : EDouble → EDouble → Bool
  | EDouble.fin a, EDouble.fin b => decide (b < a)
  | _, _ => false

/-- One step of the min tracking, line 204: `if (values[i] < min) min = values[i]`. -/
def minStep (m v : EDouble) : EDouble := if eltLt v m then v else m

/-- One step of the max tracking, line 205: `if (values[i] > max) max = values[i]`. -/
def maxStep (m v : EDouble) : EDouble := if eltGt v m then v else m

/-- The min/max tracking of `calculate_stats` (lines 198-206) on NaN-extended
doubles: both accumulators are initialised from `values[0]` and the loop runs
over the whole sequence (its first iteration is a no-op, since no value is
`<` or `>` itself). -/
def trackMinMax (values : List EDouble) : EDouble × EDouble :=
  values.foldl (fun mm v => (minStep mm.1 v, maxStep mm.2 v))
    (values.headD EDouble.nan, values.headD EDouble.nan)

/-! Projection lemmas for `calculate_stats`, all definitional. -/

lemma cs_count (l : List ℚ) : (calculate_stats l).count = l.length := rfl

lemma cs_sum (l : List ℚ) :
    (calculate_stats l).sum = l.foldl (fun acc v => acc + v) 0 := rfl

lemma cs_min (l : List ℚ) :
    (calculate_stats l).min = l.foldl (fun m v => if v < m then v else m) (l.headD 0) := rfl

lemma cs_max (l : List ℚ) :
    (calculate_stats l).max = l.foldl (fun m v => if v > m then v else m) (l.headD 0) := rfl

lemma cs_mean (l : List ℚ) :
    (calculate_stats l).mean = (calculate_stats l).sum / (l.length : ℚ) := rfl

lemma cs_range (l : List ℚ) :
    (calculate_stats l).range = (calculate_stats l).max - (calculate_stats l).min := rfl

lemma cs_median (l : List ℚ) :
    (calculate_stats l).median = get_percentile (sortQ l) 0.50 := rfl

lemma cs_q1 (l : List ℚ) :
    (calculate_stats l).q1 = get_percentile (sortQ l) 0.25 := rfl

lemma cs_q3 (l : List ℚ) :
    (calculate_stats l).q3 = get_percentile (sortQ l) 0.75 := rfl

lemma cs_variance (l : List ℚ) :
    (calculate_stats l).variance =
      l.foldl (fun acc v => acc + (v - (calculate_stats l).mean) * (v - (calculate_stats l).mean)) 0
        / (l.length : ℚ) := rfl

lemma cs_stddev (l : List ℚ) :
    (calculate_stats l).stddev = Real.sqrt ((calculate_stats l).variance : ℝ) := rfl

/-! Fold lemmas. -/

lemma foldl_add_map (f : ℚ → ℚ) :
    ∀ (l : List ℚ) (a : ℚ), l.foldl (fun acc v => acc + f v) a = a + (l.map f).sum
  | [], a => by simp
  | x :: xs, a => by
    rw [List.foldl_cons, foldl_add_map f xs (a + f x), List.map_cons, List.sum_cons]
    ring

lemma minstep_eq_min (m v : ℚ) : (if v < m then v else m) = min m v := by
  rcases lt_or_le v m with h | h
  · rw [if_pos h, min_eq_right h.le]
  · rw [if_neg (not_lt.2 h), min_eq_left h]

lemma maxstep_eq_max (m v : ℚ) : (if v > m then v else m) = max m v := by
  rcases lt_or_le m v with h | h
  · rw [if_pos h, max_eq_right h.le]
  · rw [if_neg (not_lt.2 h), max_eq_left h]

lemma foldl_minstep (l : List ℚ) (a : ℚ) :
    l.foldl (fun m v => if v < m then v else m) a = l.foldl min a := by
  have h : (fun (m v : ℚ) => if v < m then v else m) = fun m v => min m v := by
    funext m v; exact minstep_eq_min m v
  rw [h]

lemma foldl_maxstep (l : List ℚ) (a : ℚ) :
    l.foldl (fun m v => if v > m then v else m) a = l.foldl max a := by
  have h : (fun (m v : ℚ) => if v > m then v else m) = fun m v => max m v := by
    funext m v; exact maxstep_eq_max m v
  rw [h]

lemma foldl_min_le_init : ∀ (l : List ℚ) (a : ℚ), l.foldl min a ≤ a
  | [], a => le_refl a
  | x :: xs, a => le_trans (foldl_min_le_init xs (min a x)) (min_le_left a x)

lemma foldl_min_le_mem : ∀ {l : List ℚ} {x : ℚ}, x ∈ l → ∀ a : ℚ, l.foldl min a ≤ x := by
  intro l
  induction l with
  | nil => intro x hx; cases hx
  | cons y ys ih =>
    intro x hx a
    rcases List.mem_cons.1 hx with rfl | hx
    · exact le_trans (foldl_min_le_init ys (min a x)) (min_le_right a x)
    · exact ih hx (min a y)

lemma foldl_min_mem : ∀ (l : List ℚ) (a : ℚ), l.foldl min a = a ∨ l.foldl min a ∈ l
  | [], a => Or.inl rfl
  | x :: xs, a => by
    rcases foldl_min_mem xs (min a x) with h | h
    · rw [List.foldl_cons, h]
      rcases min_choice a x with h2 | h2
      · exact Or.inl h2
      · exact Or.inr (by rw [h2]; exact List.mem_cons_self x xs)
    · exact Or.inr (List.mem_cons_of_mem x h)

lemma foldl_max_ge_init : ∀ (l : List ℚ) (a : ℚ), a ≤ l.foldl max a
  | [], a => le_refl a
  | x :: xs, a => le_trans (le_max_left a x) (foldl_max_ge_init xs (max a x))

lemma foldl_max_ge_mem : ∀ {l : List ℚ} {x : ℚ}, x ∈ l → ∀ a : ℚ, x ≤ l.foldl max a := by
  intro l
  induction l with
  | nil => intro x hx; cases hx
  | cons y ys ih =>
    intro x hx a
    rcases List.mem_cons.1 hx with rfl | hx
    · exact le_trans (le_max_right a x) (foldl_max_ge_init ys (max a x))
    · exact ih hx (max a y)

lemma foldl_max_mem : ∀ (l : List ℚ) (a : ℚ), l.foldl max a = a ∨ l.foldl max a ∈ l
  | [], a => Or.inl rfl
  | x :: xs, a => by
    rcases foldl_max_mem xs (max a x) with h | h
    · rw [List.foldl_cons, h]
      rcases max_choice a x with h2 | h2
      · exact Or.inl h2
      · exact Or.inr (by rw [h2]; exact List.mem_cons_self x xs)
    · exact Or.inr (List.mem_cons_of_mem x h)

/-! Indexing and sortedness lemmas. -/

lemma getD_mem {s : List ℚ} {n : ℕ} (h : n < s.length) : s.getD n 0 ∈ s := by
  rw [List.getD_eq_getElem?_getD, List.getElem?_eq_getElem h]
  exact List.getElem_mem h

lemma sorted_getD_mono {s : List ℚ} (hs : List.Sorted (· ≤ ·) s) {i j : ℕ}
    (hij : i ≤ j) (hj : j < s.length) : s.getD i 0 ≤ s.getD j 0 := by
  have hi : i < s.length := lt_of_le_of_lt hij hj
  rw [List.getD_eq_getElem?_getD, List.getElem?_eq_getElem hi,
    List.getD_eq_getElem?_getD, List.getElem?_eq_getElem hj]
  have := hs.rel_get_of_le (a := ⟨i, hi⟩) (b := ⟨j, hj⟩) hij
  simpa using this

/-! Floor / interpolation-weight lemmas. -/

lemma weight_nonneg {t : ℚ} (ht : 0 ≤ t) : 0 ≤ t - (Nat.floor t : ℚ) :=
  sub_nonneg.2 (Nat.floor_le ht)

lemma weight_lt_one (t : ℚ) : t - (Nat.floor t : ℚ) < 1 :=
  sub_lt_iff_lt_add.2 (by have := Nat.lt_floor_add_one t; push_cast at this ⊢; linarith)

/-! Branch lemmas for `get_percentile`. -/

lemma get_percentile_top {s : List ℚ} {p : ℚ} (h2 : 2 ≤ s.length)
    (h : s.length ≤ Nat.floor (p * ((s.length : ℚ) - 1)) + 1) :
    get_percentile s p = s.getD (s.length - 1) 0 := by
  unfold get_percentile
  rw [if_neg (by omega), if_neg (by omega), if_pos h]

lemma get_percentile_interp {s : List ℚ} {p : ℚ} (h2 : 2 ≤ s.length)
    (h : Nat.floor (p * ((s.length : ℚ) - 1)) + 1 < s.length) :
    get_percentile s p =
      s.getD (Nat.floor (p * ((s.length : ℚ) - 1))) 0
          * (1 - (p * ((s.length : ℚ) - 1) - (Nat.floor (p * ((s.length : ℚ) - 1)) : ℚ)))
        + s.getD (Nat.floor (p * ((s.length : ℚ) - 1)) + 1) 0
          * (p * ((s.length : ℚ) - 1) - (Nat.floor (p * ((s.length : ℚ) - 1)) : ℚ)) := by
  unfold get_percentile
  rw [if_neg (by omega), if_neg (by omega), if_neg (by omega)]

/-- The value of `get_percentile` is bounded below by any lower bound of the
elements, for any non-empty list and a non-negative percentile fraction. -/
lemma le_get_percentile {s : List ℚ} {p m : ℚ} (hs : s ≠ [])
    (hm : ∀ x ∈ s, m ≤ x) (hp : 0 ≤ p) : m ≤ get_percentile s p := by
  rcases Nat.lt_or_ge s.length 2 with hlen | hlen
  · have h1 : s.length = 1 := by
      have := List.length_pos.2 hs
      omega
    obtain ⟨x, t, rfl⟩ := List.exists_cons_of_ne_nil hs
    have ht : t = [] := by
      simpa using h1
    subst ht
    unfold get_percentile
    simpa using hm x (List.mem_cons_self x [])
  · have hn1 : (1 : ℚ) ≤ (s.length : ℚ) - 1 := by
      have : (2 : ℚ) ≤ (s.length : ℚ) := by exact_mod_cast hlen
      linarith
    have ht0 : 0 ≤ p * ((s.length : ℚ) - 1) := mul_nonneg hp (by linarith)
    by_cases hbr : s.length ≤ Nat.floor (p * ((s.length : ℚ) - 1)) + 1
    · rw [get_percentile_top hlen hbr]
      exact hm _ (getD_mem (by omega))
    · push_neg at hbr
      rw [get_percentile_interp hlen hbr]
      have hw0 : 0 ≤ p * ((s.length : ℚ) - 1) - (Nat.floor (p * ((s.length : ℚ) - 1)) : ℚ) :=
        weight_nonneg ht0
      have hw1 : p * ((s.length : ℚ) - 1) - (Nat.floor (p * ((s.length : ℚ) - 1)) : ℚ) < 1 :=
        weight_lt_one _
      have ha : m ≤ s.getD (Nat.floor (p * ((s.length : ℚ) - 1))) 0 :=
        hm _ (getD_mem (by omega))
      have hb : m ≤ s.getD (Nat.floor (p * ((s.length : ℚ) - 1)) + 1) 0 :=
        hm _ (getD_mem (by omega))
      nlinarith [mul_nonneg (sub_nonneg.2 ha) (by linarith :
          (0 : ℚ) ≤ 1 - (p * ((s.length : ℚ) - 1) - (Nat.floor (p * ((s.length : ℚ) - 1)) : ℚ))),
        mul_nonneg (sub_nonneg.2 hb) hw0]

/-- The value of `get_percentile` is bounded above by any upper bound of the
elements, for any non-empty list and a non-negative percentile fraction. -/
lemma get_percentile_le {s : List ℚ} {p M : ℚ} (hs : s ≠ [])
    (hM : ∀ x ∈ s, x ≤ M) (hp : 0 ≤ p) : get_percentile s p ≤ M := by
  rcases Nat.lt_or_ge s.length 2 with hlen | hlen
  · have h1 : s.length = 1 := by
      have := List.length_pos.2 hs
      omega
    obtain ⟨x, t, rfl⟩ := List.exists_cons_of_ne_nil hs
    have ht : t = [] := by
      simpa using h1
    subst ht
    unfold get_percentile
    simpa using hM x (List.mem_cons_self x [])
  · have hn1 : (1 : ℚ) ≤ (s.length : ℚ) - 1 := by
      have : (2 : ℚ) ≤ (s.length : ℚ) := by exact_mod_cast hlen
      linarith
    have ht0 : 0 ≤ p * ((s.length : ℚ) - 1) := mul_nonneg hp (by linarith)
    by_cases hbr : s.length ≤ Nat.floor (p * ((s.length : ℚ) - 1)) + 1
    · rw [get_percentile_top hlen hbr]
      exact hM _ (getD_mem (by omega))
    · push_neg at hbr
      rw [get_percentile_interp hlen hbr]
      have hw0 : 0 ≤ p * ((s.length : ℚ) - 1) - (Nat.floor (p * ((s.length : ℚ) - 1)) : ℚ) :=
        weight_nonneg ht0
      have hw1 : p * ((s.length : ℚ) - 1) - (Nat.floor (p * ((s.length : ℚ) - 1)) : ℚ) < 1 :=
        weight_lt_one _
      have ha : s.getD (Nat.floor (p * ((s.length : ℚ) - 1))) 0 ≤ M :=
        hM _ (getD_mem (by omega))
      have hb : s.getD (Nat.floor (p * ((s.length : ℚ) - 1)) + 1) 0 ≤ M :=
        hM _ (getD_mem (by omega))
      nlinarith [mul_nonneg (sub_nonneg.2 ha) (by linarith :
          (0 : ℚ) ≤ 1 - (p * ((s.length : ℚ) - 1) - (Nat.floor (p * ((s.length : ℚ) - 1)) : ℚ))),
        mul_nonneg (sub_nonneg.2 hb) hw0]

/-- On a sorted list, `get_percentile` is monotone in the percentile fraction
over `[0, 1]`. -/
lemma get_percentile_mono {s : List ℚ} (hs : List.Sorted (· ≤ ·) s) {p q : ℚ}
    (hp : 0 ≤ p) (hpq : p ≤ q) (hq : q ≤ 1) :
    get_percentile s p ≤ get_percentile s q := by
  rcases Nat.lt_or_ge s.length 2 with hlen | hlen
  · have : s.length = 0 ∨ s.length = 1 := by omega
    rcases this with h | h
    · unfold get_percentile
      rw [if_pos h, if_pos h]
    · unfold get_percentile
      rw [if_neg (by omega), if_pos h, if_neg (by omega), if_pos h]
  · have hn1 : (1 : ℚ) ≤ (s.length : ℚ) - 1 := by
      have : (2 : ℚ) ≤ (s.length : ℚ) := by exact_mod_cast hlen
      linarith
    have htp0 : 0 ≤ p * ((s.length : ℚ) - 1) := mul_nonneg hp (by linarith)
    have hpq' : p * ((s.length : ℚ) - 1) ≤ q * ((s.length : ℚ) - 1) :=
      mul_le_mul_of_nonneg_right hpq (by linarith)
    have htq0 : 0 ≤ q * ((s.length : ℚ) - 1) := le_trans htp0 hpq'
    have htqn : q * ((s.length : ℚ) - 1) ≤ (s.length : ℚ) - 1 :=
      mul_le_of_le_one_left (by linarith) hq
    have hfloorq : Nat.floor (q * ((s.length : ℚ) - 1)) ≤ s.length - 1 := by
      have h2 : ((s.length : ℚ) - 1) = ((s.length - 1 : ℕ) : ℚ) := by
        rw [Nat.cast_sub (by omega), Nat.cast_one]
      calc Nat.floor (q * ((s.length : ℚ) - 1))
          ≤ Nat.floor ((s.length : ℚ) - 1) := Nat.floor_mono htqn
        _ = s.length - 1 := by rw [h2, Nat.floor_natCast]
    have hLpq : Nat.floor (p * ((s.length : ℚ) - 1)) ≤ Nat.floor (q * ((s.length : ℚ) - 1)) :=
      Nat.floor_mono hpq'
    by_cases hA : s.length ≤ Nat.floor (p * ((s.length : ℚ) - 1)) + 1
    · rw [get_percentile_top hlen hA, get_percentile_top hlen (by omega)]
    · push_neg at hA
      rw [get_percentile_interp hlen hA]
      have hwp0 : 0 ≤ p * ((s.length : ℚ) - 1) - (Nat.floor (p * ((s.length : ℚ) - 1)) : ℚ) :=
        weight_nonneg htp0
      have hwp1 : p * ((s.length : ℚ) - 1) - (Nat.floor (p * ((s.length : ℚ) - 1)) : ℚ) < 1 :=
        weight_lt_one _
      have hab : s.getD (Nat.floor (p * ((s.length : ℚ) - 1))) 0
          ≤ s.getD (Nat.floor (p * ((s.length : ℚ) - 1)) + 1) 0 :=
        sorted_getD_mono hs (Nat.le_succ _) hA
      by_cases hB : s.length ≤ Nat.floor (q * ((s.length : ℚ) - 1)) + 1
      · rw [get_percentile_top hlen hB]
        have h1 : s.getD (Nat.floor (p * ((s.length : ℚ) - 1))) 0
              * (1 - (p * ((s.length : ℚ) - 1) - (Nat.floor (p * ((s.length : ℚ) - 1)) : ℚ)))
            + s.getD (Nat.floor (p * ((s.length : ℚ) - 1)) + 1) 0
              * (p * ((s.length : ℚ) - 1) - (Nat.floor (p * ((s.length : ℚ) - 1)) : ℚ))
            ≤ s.getD (Nat.floor (p * ((s.length : ℚ) - 1)) + 1) 0 := by nlinarith
        have h2 : s.getD (Nat.floor (p * ((s.length : ℚ) - 1)) + 1) 0
            ≤ s.getD (s.length - 1) 0 :=
          sorted_getD_mono hs (by omega) (by omega)
        linarith
      · push_neg at hB
        rw [get_percentile_interp hlen hB]
        have hwq0 : 0 ≤ q * ((s.length : ℚ) - 1) - (Nat.floor (q * ((s.length : ℚ) - 1)) : ℚ) :=
          weight_nonneg htq0
        have hwq1 : q * ((s.length : ℚ) - 1) - (Nat.floor (q * ((s.length : ℚ) - 1)) : ℚ) < 1 :=
          weight_lt_one _
        have hab' : s.getD (Nat.floor (q * ((s.length : ℚ) - 1))) 0
            ≤ s.getD (Nat.floor (q * ((s.length : ℚ) - 1)) + 1) 0 :=
          sorted_getD_mono hs (Nat.le_succ _) hB
        rcases eq_or_lt_of_le hLpq with hEq | hLt
        · rw [← hEq]
          nlinarith [mul_nonneg (sub_nonneg.2 hpq') (sub_nonneg.2 hab)]
        · have m1 : s.getD (Nat.floor (p * ((s.length : ℚ) - 1))) 0
                * (1 - (p * ((s.length : ℚ) - 1) - (Nat.floor (p * ((s.length : ℚ) - 1)) : ℚ)))
              + s.getD (Nat.floor (p * ((s.length : ℚ) - 1)) + 1) 0
                * (p * ((s.length : ℚ) - 1) - (Nat.floor (p * ((s.length : ℚ) - 1)) : ℚ))
              ≤ s.getD (Nat.floor (p * ((s.length : ℚ) - 1)) + 1) 0 := by nlinarith
          have m2 : s.getD (Nat.floor (p * ((s.length : ℚ) - 1)) + 1) 0
              ≤ s.getD (Nat.floor (q * ((s.length : ℚ) - 1))) 0 :=
            sorted_getD_mono hs (by omega) (by omega)
          have m3 : s.getD (Nat.floor (q * ((s.length : ℚ) - 1))) 0
              ≤ s.getD (Nat.floor (q * ((s.length : ℚ) - 1))) 0
                * (1 - (q * ((s.length : ℚ) - 1) - (Nat.floor (q * ((s.length : ℚ) - 1)) : ℚ)))
              + s.getD (Nat.floor (q * ((s.length : ℚ) - 1)) + 1) 0
                * (q * ((s.length : ℚ) - 1) - (Nat.floor (q * ((s.length : ℚ) - 1)) : ℚ)) := by
            nlinarith
          linarith

/-! Lemmas about the sort and about permutation invariance. -/

/-- The order used by `qsort` via `compare_double` is exactly `≤` on the
rational model: a compares no-greater-than b iff `a ≤ b`. -/
lemma compare_double_nonpos_iff (a b : ℚ) : compare_double a b ≤ 0 ↔ a ≤ b := by
  unfold compare_double
  rcases lt_trichotomy a b with h | h | h
  · rw [if_neg (by linarith), if_pos (by linarith)]
    simp [h.le]
  · subst h
    simp
  · rw [if_pos (by linarith), if_neg (by linarith)]
    simp [h.not_le]

lemma sortQ_sorted (l : List ℚ) : List.Sorted (· ≤ ·) (sortQ l) :=
  List.sorted_insertionSort (· ≤ ·) l

lemma sortQ_perm (l : List ℚ) : (sortQ l).Perm l :=
  List.perm_insertionSort (· ≤ ·) l

lemma sortQ_length (l : List ℚ) : (sortQ l).length = l.length :=
  (sortQ_perm l).length_eq

lemma sortQ_eq_of_perm {l₁ l₂ : List ℚ} (h : l₁.Perm l₂) : sortQ l₁ = sortQ l₂ :=
  List.eq_of_perm_of_sorted ((sortQ_perm l₁).trans (h.trans (sortQ_perm l₂).symm))
    (sortQ_sorted l₁) (sortQ_sorted l₂)

lemma foldl_sum_eq (l : List ℚ) : l.foldl (fun acc v => acc + v) 0 = l.sum := by
  rw [foldl_add_map (fun v => v) l 0, zero_add, List.map_id']

lemma foldl_min_eq_of_perm {l₁ l₂ : List ℚ} (h : l₁.Perm l₂) (hne : l₁ ≠ []) :
    l₁.foldl min (l₁.headD 0) = l₂.foldl min (l₂.headD 0) := by
  have hne₂ : l₂ ≠ [] := fun h2 => hne (by simpa using (h2 ▸ h).eq_nil)
  obtain ⟨x₁, t₁, rfl⟩ := List.exists_cons_of_ne_nil hne
  obtain ⟨x₂, t₂, rfl⟩ := List.exists_cons_of_ne_nil hne₂
  simp only [List.headD_cons]
  apply le_antisymm
  · have hm : (x₂ :: t₂).foldl min x₂ ∈ x₂ :: t₂ := by
      rcases foldl_min_mem (x₂ :: t₂) x₂ with h2 | h2
      · rw [h2]; exact List.mem_cons_self x₂ t₂
      · exact h2
    exact foldl_min_le_mem (h.mem_iff.2 hm) x₁
  · have hm : (x₁ :: t₁).foldl min x₁ ∈ x₁ :: t₁ := by
      rcases foldl_min_mem (x₁ :: t₁) x₁ with h2 | h2
      · rw [h2]; exact List.mem_cons_self x₁ t₁
      · exact h2
    exact foldl_min_le_mem (h.mem_iff.1 hm) x₂

lemma foldl_max_eq_of_perm {l₁ l₂ : List ℚ} (h : l₁.Perm l₂) (hne : l₁ ≠ []) :
    l₁.foldl max (l₁.headD 0) = l₂.foldl max (l₂.headD 0) := by
  have hne₂ : l₂ ≠ [] := fun h2 => hne (by simpa using (h2 ▸ h).eq_nil)
  obtain ⟨x₁, t₁, rfl⟩ := List.exists_cons_of_ne_nil hne
  obtain ⟨x₂, t₂, rfl⟩ := List.exists_cons_of_ne_nil hne₂
  simp only [List.headD_cons]
  apply le_antisymm
  · have hm : (x₁ :: t₁).foldl max x₁ ∈ x₁ :: t₁ := by
      rcases foldl_max_mem (x₁ :: t₁) x₁ with h2 | h2
      · rw [h2]; exact List.mem_cons_self x₁ t₁
      · exact h2
    exact foldl_max_ge_mem (h.mem_iff.1 hm) x₂
  · have hm : (x₂ :: t₂).foldl max x₂ ∈ x₂ :: t₂ := by
      rcases foldl_max_mem (x₂ :: t₂) x₂ with h2 | h2
      · rw [h2]; exact List.mem_cons_self x₂ t₂
      · exact h2
    exact foldl_max_ge_mem (h.mem_iff.2 hm) x₁

/-! Lemmas about the NaN-extended comparisons. -/

lemma eltLt_nan_right (v : EDouble) : eltLt v EDouble.nan = false := by
  cases v <;> rfl

lemma eltLt_nan_left (v : EDouble) : eltLt EDouble.nan v = false := by
  cases v <;> rfl

lemma eltGt_nan_right (v : EDouble) : eltGt v EDouble.nan = false := by
  cases v <;> rfl

lemma eltGt_nan_left (v : EDouble) : eltGt EDouble.nan v = false := by
  cases v <;> rfl

lemma minStep_nan_acc (v : EDouble) : minStep EDouble.nan v = EDouble.nan := by
  unfold minStep
  rw [eltLt_nan_right v]
  rfl

lemma maxStep_nan_acc (v : EDouble) : maxStep EDouble.nan v = EDouble.nan := by
  unfold maxStep
  rw [eltGt_nan_right v]
  rfl

lemma minStep_nan_val (m : EDouble) : minStep m EDouble.nan = m := by
  unfold minStep
  rw [eltLt_nan_left m]
  rfl

lemma maxStep_nan_val (m : EDouble) : maxStep m EDouble.nan = m := by
  unfold maxStep
  rw [eltGt_nan_left m]
  rfl

lemma foldl_track_nan : ∀ xs : List EDouble,
    xs.foldl (fun mm v => (minStep mm.1 v, maxStep mm.2 v)) (EDouble.nan, EDouble.nan)
      = (EDouble.nan, EDouble.nan)
  | [] => rfl
  | v :: xs => by
    rw [List.foldl_cons]
    simp only [minStep_nan_acc, maxStep_nan_acc]
    exact foldl_track_nan xs

/-!
The claims.  Each claim of the specification corresponds to one theorem
below, preceded by its claim id.
-/

/-- C1: for every sorted sequence of doubles with count ≥ 2 and percentile
fraction p, `get_percentile` returns `sorted[lower]*(1-weight) +
sorted[upper]*weight` where `index = p*(count-1)`, `lower = floor(index)`,
`upper = lower+1`, `weight = index-lower`, and returns `sorted[count-1]` when
`upper ≥ count` (the R-7 linear-interpolation method); in particular, for
input [1,2,3,4] the engine yields median = 2.5, q1 = 1.75, q3 = 3.25. -/
theorem c1_percentile_r7 :
    (∀ (s : List ℚ) (p : ℚ), 2 ≤ s.length → 0 ≤ p → p ≤ 1 →
      get_percentile s p =
        if s.length ≤ Nat.floor (p * ((s.length : ℚ) - 1)) + 1 then
          s.getD (s.length - 1) 0
        else
          s.getD (Nat.floor (p * ((s.length : ℚ) - 1))) 0
              * (1 - (p * ((s.length : ℚ) - 1) - (Nat.floor (p * ((s.length : ℚ) - 1)) : ℚ)))
            + s.getD (Nat.floor (p * ((s.length : ℚ) - 1)) + 1) 0
              * (p * ((s.length : ℚ) - 1) - (Nat.floor (p * ((s.length : ℚ) - 1)) : ℚ)))
    ∧ (calculate_stats [1, 2, 3, 4]).median = 2.5
    ∧ (calculate_stats [1, 2, 3, 4]).q1 = 1.75
    ∧ (calculate_stats [1, 2, 3, 4]).q3 = 3.25 := by
  refine ⟨?_, ?_, ?_, ?_⟩
  · intro s p h2 hp0 hp1
    by_cases hbr : s.length ≤ Nat.floor (p * ((s.length : ℚ) - 1)) + 1
    · rw [if_pos hbr, get_percentile_top h2 hbr]
    · rw [if_neg hbr, get_percentile_interp h2 (by omega)]
  · have h1 : ⌊(3 / 2 : ℚ)⌋₊ = 1 := by rw [Nat.floor_eq_iff (by norm_num)]; norm_num
    norm_num [calculate_stats, sortQ, get_percentile, List.insertionSort, List.orderedInsert, h1]
  · have h1 : ⌊(3 / 4 : ℚ)⌋₊ = 0 := by rw [Nat.floor_eq_iff (by norm_num)]; norm_num
    norm_num [calculate_stats, sortQ, get_percentile, List.insertionSort, List.orderedInsert, h1]
  · have h1 : ⌊(9 / 4 : ℚ)⌋₊ = 2 := by rw [Nat.floor_eq_iff (by norm_num)]; norm_num
    norm_num [calculate_stats, sortQ, get_percentile, List.insertionSort, List.orderedInsert, h1]

/-- Witness for C1: the hypotheses of the universally quantified part are
satisfiable, instantiated at the sorted list [1,2,3,4] and p = 1/2, where the
formula evaluates to 5/2. -/
theorem c1_percentile_r7_witness :
    (2 ≤ ([(1 : ℚ), 2, 3, 4]).length) ∧ ((0 : ℚ) ≤ 1 / 2) ∧ ((1 / 2 : ℚ) ≤ 1)
    ∧ get_percentile [(1 : ℚ), 2, 3, 4] (1 / 2) = 5 / 2 := by
  refine ⟨by norm_num, by norm_num, by norm_num, ?_⟩
  have h := c1_percentile_r7.1 [(1 : ℚ), 2, 3, 4] (1 / 2) (by norm_num) (by norm_num) (by norm_num)
  rw [h]
  have h1 : ⌊(3 / 2 : ℚ)⌋₊ = 1 := by rw [Nat.floor_eq_iff (by norm_num)]; norm_num
  norm_num [h1]

/-- C2: for every non-empty sequence of doubles, `calculate_stats` sets
variance to the sum of squared deviations from the mean divided by count
(population variance, denominator count, not count-1) and stddev to
sqrt(variance); in particular, input [2,4,4,4,5,5,7,9] yields mean 5.0,
variance 4.0, stddev 2.0. -/
theorem c2_population_variance :
    (∀ l : List ℚ, l ≠ [] →
      (calculate_stats l).variance =
        (l.map (fun v => (v - (calculate_stats l).mean) ^ 2)).sum / (l.length : ℚ)
      ∧ (calculate_stats l).stddev = Real.sqrt ((calculate_stats l).variance : ℝ))
    ∧ (calculate_stats [2, 4, 4, 4, 5, 5, 7, 9]).mean = 5
    ∧ (calculate_stats [2, 4, 4, 4, 5, 5, 7, 9]).variance = 4
    ∧ (calculate_stats [2, 4, 4, 4, 5, 5, 7, 9]).stddev = 2 := by
  have hvar : (calculate_stats [2, 4, 4, 4, 5, 5, 7, 9]).variance = 4 := by
    norm_num [calculate_stats]
  refine ⟨?_, ?_, hvar, ?_⟩
  · intro l _
    constructor
    · rw [cs_variance, foldl_add_map
        (fun v => (v - (calculate_stats l).mean) * (v - (calculate_stats l).mean)) l 0, zero_add]
      have h : (fun v => (v - (calculate_stats l).mean) * (v - (calculate_stats l).mean))
          = fun v => (v - (calculate_stats l).mean) ^ 2 := by
        funext v; ring
      rw [h]
    · exact cs_stddev l
  · norm_num [calculate_stats]
  · rw [cs_stddev, hvar]
    rw [show (((4 : ℚ) : ℝ)) = (2 : ℝ) ^ 2 by norm_num]
    exact Real.sqrt_sq (by norm_num)

/-- Witness for C2: the universally quantified part instantiated at the
non-empty list [2,4,4,4,5,5,7,9]. -/
theorem c2_population_variance_witness :
    ([(2 : ℚ), 4, 4, 4, 5, 5, 7, 9] ≠ ([] : List ℚ))
    ∧ ((calculate_stats [2, 4, 4, 4, 5, 5, 7, 9]).variance =
        (([(2 : ℚ), 4, 4, 4, 5, 5, 7, 9]).map
          (fun v => (v - (calculate_stats [2, 4, 4, 4, 5, 5, 7, 9]).mean) ^ 2)).sum
          / ((([(2 : ℚ), 4, 4, 4, 5, 5, 7, 9]).length : ℚ))
      ∧ (calculate_stats [2, 4, 4, 4, 5, 5, 7, 9]).stddev =
          Real.sqrt (((calculate_stats [2, 4, 4, 4, 5, 5, 7, 9]).variance : ℚ) : ℝ)) :=
  ⟨by simp, c2_population_variance.1 [2, 4, 4, 4, 5, 5, 7, 9] (by simp)⟩

/-- C3: for every non-empty finite sequence of finite doubles, the Stats record
produced by `calculate_stats` satisfies min ≤ q1 ≤ median ≤ q3 ≤ max, and
variance ≥ 0. -/
theorem c3_stats_invariant (l : List ℚ) (hne : l ≠ []) :
    (calculate_stats l).min ≤ (calculate_stats l).q1
    ∧ (calculate_stats l).q1 ≤ (calculate_stats l).median
    ∧ (calculate_stats l).median ≤ (calculate_stats l).q3
    ∧ (calculate_stats l).q3 ≤ (calculate_stats l).max
    ∧ 0 ≤ (calculate_stats l).variance := by
  have hsne : sortQ l ≠ [] := by
    intro h
    have hlen := sortQ_length l
    rw [h] at hlen
    exact hne (List.length_eq_zero.1 hlen.symm)
  have hmin : ∀ x ∈ sortQ l, (calculate_stats l).min ≤ x := by
    intro x hx
    rw [cs_min, foldl_minstep]
    exact foldl_min_le_mem ((sortQ_perm l).mem_iff.1 hx) _
  have hmax : ∀ x ∈ sortQ l, x ≤ (calculate_stats l).max := by
    intro x hx
    rw [cs_max, foldl_maxstep]
    exact foldl_max_ge_mem ((sortQ_perm l).mem_iff.1 hx) _
  refine ⟨?_, ?_, ?_, ?_, ?_⟩
  · rw [cs_q1]
    exact le_get_percentile hsne hmin (by norm_num)
  · rw [cs_q1, cs_median]
    exact get_percentile_mono (sortQ_sorted l) (by norm_num) (by norm_num) (by norm_num)
  · rw [cs_median, cs_q3]
    exact get_percentile_mono (sortQ_sorted l) (by norm_num) (by norm_num) (by norm_num)
  · rw [cs_q3]
    exact get_percentile_le hsne hmax (by norm_num)
  · rw [cs_variance, foldl_add_map _ l 0, zero_add]
    apply div_nonneg
    · apply List.sum_nonneg
      intro x hx
      obtain ⟨v, _, rfl⟩ := List.mem_map.1 hx
      exact mul_self_nonneg _
    · exact Nat.cast_nonneg _

/-- Witness for C3: the invariant chain at the concrete non-empty input
[3, 1, 2]. -/
theorem c3_stats_invariant_witness :
    ([(3 : ℚ), 1, 2] ≠ ([] : List ℚ))
    ∧ ((calculate_stats [(3 : ℚ), 1, 2]).min ≤ (calculate_stats [(3 : ℚ), 1, 2]).q1
      ∧ (calculate_stats [(3 : ℚ), 1, 2]).q1 ≤ (calculate_stats [(3 : ℚ), 1, 2]).median
      ∧ (calculate_stats [(3 : ℚ), 1, 2]).median ≤ (calculate_stats [(3 : ℚ), 1, 2]).q3
      ∧ (calculate_stats [(3 : ℚ), 1, 2]).q3 ≤ (calculate_stats [(3 : ℚ), 1, 2]).max
      ∧ 0 ≤ (calculate_stats [(3 : ℚ), 1, 2]).variance) :=
  ⟨by simp, c3_stats_invariant [3, 1, 2] (by simp)⟩

/-- C4: for every sequence of doubles and every permutation of that sequence,
`calculate_stats` produces an identical Stats record (every caller-visible
field equal): the logical output is order-independent with respect to the
input.  (Proved for all lists, which includes every non-empty one.) -/
theorem c4_permutation_invariant (l₁ l₂ : List ℚ) (h : l₁.Perm l₂) :
    calculate_stats l₁ = calculate_stats l₂ := by
  rcases eq_or_ne l₁ [] with rfl | hne
  · rw [h.symm.eq_nil]
  · have hcount : l₁.length = l₂.length := h.length_eq
    have hsum : (calculate_stats l₁).sum = (calculate_stats l₂).sum := by
      rw [cs_sum, cs_sum, foldl_sum_eq, foldl_sum_eq]
      exact h.sum_eq
    have hmin : (calculate_stats l₁).min = (calculate_stats l₂).min := by
      rw [cs_min, cs_min, foldl_minstep, foldl_minstep]
      exact foldl_min_eq_of_perm h hne
    have hmax : (calculate_stats l₁).max = (calculate_stats l₂).max := by
      rw [cs_max, cs_max, foldl_maxstep, foldl_maxstep]
      exact foldl_max_eq_of_perm h hne
    have hmean : (calculate_stats l₁).mean = (calculate_stats l₂).mean := by
      rw [cs_mean, cs_mean, hsum, hcount]
    have hvar : (calculate_stats l₁).variance = (calculate_stats l₂).variance := by
      rw [cs_variance, cs_variance, foldl_add_map _ _ 0, foldl_add_map _ _ 0,
        zero_add, zero_add, hcount, hmean]
      congr 1
      exact (h.map _).sum_eq
    have hsort : sortQ l₁ = sortQ l₂ := sortQ_eq_of_perm h
    refine Stats.ext ?_ ?_ ?_ ?_ ?_ ?_ ?_ ?_ ?_ ?_ ?_
    · rw [cs_count, cs_count, hcount]
    · exact hsum
    · exact hmean
    · exact hmin
    · exact hmax
    · rw [cs_range, cs_range, hmin, hmax]
    · rw [cs_median, cs_median, hsort]
    · rw [cs_q1, cs_q1, hsort]
    · rw [cs_q3, cs_q3, hsort]
    · exact hvar
    · rw [cs_stddev, cs_stddev, hvar]

/-- Witness for C4: the permutation hypothesis discharged at the concrete pair
[1, 2] and [2, 1]. -/
theorem c4_permutation_invariant_witness :
    calculate_stats [(1 : ℚ), 2] = calculate_stats [(2 : ℚ), 1] :=
  c4_permutation_invariant [1, 2] [2, 1] (List.Perm.swap 2 1 [])

/-- C5: `read_numbers` repeatedly parses one whitespace-delimited
floating-point token at a time, appending each successfully parsed value; on
the first failed parse (malformed token, or end of stream) it stops and
returns exactly the sequence accumulated so far — trailing garbage after valid
tokens never causes an error, it only stops further reading. -/
theorem c5_read_numbers_stops (vals : List ℚ) (rest : List (Option ℚ)) :
    read_numbers (vals.map some ++ none :: rest) = vals
    ∧ read_numbers (vals.map some) = vals := by
  constructor
  · induction vals with
    | nil => rfl
    | cons v vs ih =>
      simp only [List.map_cons, List.cons_append, read_numbers, List.append_eq]
      rw [ih]
  · induction vals with
    | nil => rfl
    | cons v vs ih =>
      simp only [List.map_cons, read_numbers]
      rw [ih]

/-- C6: if the stream yields zero valid tokens (empty stream, or a malformed
token before any number), `read_numbers` returns an empty sequence rather than
an error; `main` then reports the no-valid-numbers condition, which is a
distinct outcome from allocation failure, exits non-zero, and never invokes
`calculate_stats` (the outcome is never `success`, the only outcome carrying a
Stats record). -/
theorem c6_empty_input_error (tokens : List (Option ℚ))
    (h : ∀ (v : ℚ) (rest : List (Option ℚ)), tokens ≠ some v :: rest) :
    read_numbers tokens = []
    ∧ main_result true tokens = MainOutcome.noValidNumbers
    ∧ exit_code (main_result true tokens) = 1
    ∧ MainOutcome.noValidNumbers ≠ MainOutcome.allocFailure
    ∧ ∀ stats : Stats, main_result true tokens ≠ MainOutcome.success stats := by
  have hread : read_numbers tokens = [] := by
    cases tokens with
    | nil => rfl
    | cons t ts =>
      cases t with
      | none => rfl
      | some v => exact absurd rfl (h v ts)
  have h2 : main_result true tokens = MainOutcome.noValidNumbers := by
    simp [main_result, hread]
  refine ⟨hread, h2, by rw [h2]; rfl, fun hcontra => MainOutcome.noConfusion hcontra,
    fun stats hcontra => ?_⟩
  rw [h2] at hcontra
  exact MainOutcome.noConfusion hcontra

/-- Witness for C6: the hypothesis discharged at the concrete stream
[none, some 5] — a malformed token before any valid number. -/
theorem c6_empty_input_error_witness :
    (∀ (v : ℚ) (rest : List (Option ℚ)), ([none, some 5] : List (Option ℚ)) ≠ some v :: rest)
    ∧ (read_numbers [none, some 5] = []
      ∧ main_result true [none, some 5] = MainOutcome.noValidNumbers
      ∧ exit_code (main_result true [none, some 5]) = 1
      ∧ MainOutcome.noValidNumbers ≠ MainOutcome.allocFailure
      ∧ ∀ stats : Stats, main_result true [none, some 5] ≠ MainOutcome.success stats) := by
  have h : ∀ (v : ℚ) (rest : List (Option ℚ)), ([none, some 5] : List (Option ℚ)) ≠ some v :: rest := by
    intro v rest hcontra
    injection hcontra with h1 _
    exact Option.noConfusion h1
  exact ⟨h, c6_empty_input_error [none, some 5] h⟩

/-- C7 counterexample: the claim states that the text mode header is followed
by EIGHT labeled lines, but `print_stats_text` emits NINE labeled lines (Sum,
Mean, Median, Minimum, Maximum, Range, Q1, Q3, StdDev), shown here at a
concrete Stats record and precision 4. -/
theorem c7_field_order_counterexample :
    ((print_stats_text
        { count := 4, sum := 0, mean := 0, min := 0, max := 0, range := 0,
          median := 0, q1 := 0, q3 := 0, variance := 0, stddev := 0 }
        4).countP isLabeledLine = 9)
    ∧ ((print_stats_text
        { count := 4, sum := 0, mean := 0, min := 0, max := 0, range := 0,
          median := 0, q1 := 0, q3 := 0, variance := 0, stddev := 0 }
        4).countP isLabeledLine ≠ 8) := by
  constructor
  · decide
  · decide

/-- C7 (amended): both output modes emit the same field set in the same order
— count, sum, mean, median, min, max, range, q1, q3, stddev — with count as a
bare integer (`Sum.inl`) and every other field formatted with exactly the
configured number of digits after the decimal point; text mode prints a
`Statistics for <count> numbers:` header line followed by NINE labeled lines
(Sum, Mean, Median, Minimum, Maximum, Range, Q1, Q3, StdDev). -/
theorem c7_field_order (s : Stats) (p : ℕ) :
    (print_stats_text s p).filterMap lineValue =
      [Sum.inl s.count, Sum.inr (s.sum : ℝ), Sum.inr (s.mean : ℝ), Sum.inr (s.median : ℝ),
        Sum.inr (s.min : ℝ), Sum.inr (s.max : ℝ), Sum.inr (s.range : ℝ), Sum.inr (s.q1 : ℝ),
        Sum.inr (s.q3 : ℝ), Sum.inr s.stddev]
    ∧ (print_stats_json s p).filterMap lineValue =
      [Sum.inl s.count, Sum.inr (s.sum : ℝ), Sum.inr (s.mean : ℝ), Sum.inr (s.median : ℝ),
        Sum.inr (s.min : ℝ), Sum.inr (s.max : ℝ), Sum.inr (s.range : ℝ), Sum.inr (s.q1 : ℝ),
        Sum.inr (s.q3 : ℝ), Sum.inr s.stddev]
    ∧ print_stats_text s p =
      OutLine.header s.count ::
        [OutLine.numLine "Sum" p (s.sum : ℝ), OutLine.numLine "Mean" p (s.mean : ℝ),
          OutLine.numLine "Median" p (s.median : ℝ), OutLine.numLine "Minimum" p (s.min : ℝ),
          OutLine.numLine "Maximum" p (s.max : ℝ), OutLine.numLine "Range" p (s.range : ℝ),
          OutLine.numLine "Q1" p (s.q1 : ℝ), OutLine.numLine "Q3" p (s.q3 : ℝ),
          OutLine.numLine "StdDev" p s.stddev]
    ∧ (print_stats_text s p).countP isLabeledLine = 9
    ∧ (print_stats_text s p).filterMap linePrec = List.replicate 9 p
    ∧ (print_stats_json s p).filterMap linePrec = List.replicate 9 p :=
  ⟨rfl, rfl, rfl, rfl, rfl, rfl⟩

/-- C8: for every precision argument whose integer value is outside the range
0..10, the program substitutes the default precision 4 and emits a warning,
and this is not a fatal error: argument parsing continues on the remaining
arguments (and on `-p value` alone it completes normally with precision 4). -/
theorem c8_out_of_range_precision (config : Config) (value : String) (rest : List String)
    (h : atoi value < 0 ∨ 10 < atoi value) :
    parse_args config ("-p" :: value :: rest) =
      (precisionWarning :: (parse_args { config with precision := 4 } rest).1,
        (parse_args { config with precision := 4 } rest).2)
    ∧ parse_args config ["-p", value] =
      ([precisionWarning], ArgResult.ok { config with precision := 4 }) := by
  constructor
  · simp only [parse_args]
    rw [if_neg (by decide), if_neg (by decide), if_pos (by decide)]
    rw [if_pos h]
  · simp only [parse_args]
    rw [if_neg (by decide), if_neg (by decide), if_pos (by decide)]
    rw [if_pos h]

/-- Witness for C8: the out-of-range hypothesis discharged for the concrete
argument "15", from the default configuration, continuing with "-j". -/
theorem c8_out_of_range_precision_witness :
    (atoi "15" < 0 ∨ 10 < atoi "15")
    ∧ (parse_args defaultConfig ("-p" :: "15" :: ["-j"]) =
        (precisionWarning :: (parse_args { defaultConfig with precision := 4 } ["-j"]).1,
          (parse_args { defaultConfig with precision := 4 } ["-j"]).2)
      ∧ parse_args defaultConfig ["-p", "15"] =
        ([precisionWarning], ArgResult.ok { defaultConfig with precision := 4 })) :=
  ⟨by decide, c8_out_of_range_precision defaultConfig "15" ["-j"] (by decide)⟩

/-- C9: the min/max tracking of `calculate_stats` uses plain < and >
comparisons with no NaN special case: a NaN element never satisfies < or >, so
min and max are initialised from the first element and thereafter replaced
only when a strictly lesser (for min) or strictly greater (for max) comparable
value appears; NaN inputs pass through this logic unchanged (a NaN first
element is never replaced, and a NaN appended anywhere later never changes the
result). -/
theorem c9_nan_minmax :
    (∀ a b : ℚ, eltLt (EDouble.fin a) (EDouble.fin b) = decide (a < b)
      ∧ eltGt (EDouble.fin a) (EDouble.fin b) = decide (b < a))
    ∧ (∀ v : EDouble, eltLt v EDouble.nan = false ∧ eltLt EDouble.nan v = false
      ∧ eltGt v EDouble.nan = false ∧ eltGt EDouble.nan v = false)
    ∧ (∀ m v : EDouble, minStep m v = if eltLt v m then v else m)
    ∧ (∀ m v : EDouble, maxStep m v = if eltGt v m then v else m)
    ∧ (∀ m v : EDouble, minStep m v ≠ m →
        (∃ a b : ℚ, m = EDouble.fin a ∧ v = EDouble.fin b ∧ b < a) ∧ minStep m v = v)
    ∧ (∀ m v : EDouble, maxStep m v ≠ m →
        (∃ a b : ℚ, m = EDouble.fin a ∧ v = EDouble.fin b ∧ a < b) ∧ maxStep m v = v)
    ∧ (∀ xs : List EDouble, trackMinMax (EDouble.nan :: xs) = (EDouble.nan, EDouble.nan))
    ∧ (∀ (x : EDouble) (xs : List EDouble),
        trackMinMax ((x :: xs) ++ [EDouble.nan]) = trackMinMax (x :: xs)) := by
  refine ⟨fun a b => ⟨rfl, rfl⟩,
    fun v => ⟨eltLt_nan_right v, eltLt_nan_left v, eltGt_nan_right v, eltGt_nan_left v⟩,
    fun m v => rfl, fun m v => rfl, ?_, ?_, ?_, ?_⟩
  · intro m v hne
    by_cases hlt : eltLt v m = true
    · refine ⟨?_, by unfold minStep; rw [if_pos hlt]⟩
      cases m with
      | nan => rw [eltLt_nan_right] at hlt; exact absurd hlt (by simp)
      | fin a =>
        cases v with
        | nan => rw [eltLt_nan_left] at hlt; exact absurd hlt (by simp)
        | fin b => exact ⟨a, b, rfl, rfl, of_decide_eq_true hlt⟩
    · exact absurd (by unfold minStep; rw [if_neg hlt]) hne
  · intro m v hne
    by_cases hlt : eltGt v m = true
    · refine ⟨?_, by unfold maxStep; rw [if_pos hlt]⟩
      cases m with
      | nan => rw [eltGt_nan_right] at hlt; exact absurd hlt (by simp)
      | fin a =>
        cases v with
        | nan => rw [eltGt_nan_left] at hlt; exact absurd hlt (by simp)
        | fin b => exact ⟨a, b, rfl, rfl, of_decide_eq_true hlt⟩
    · exact absurd (by unfold maxStep; rw [if_neg hlt]) hne
  · intro xs
    unfold trackMinMax
    simp only [List.headD_cons, List.foldl_cons, minStep_nan_acc, maxStep_nan_acc]
    exact foldl_track_nan xs
  · intro x xs
    unfold trackMinMax
    simp only [List.cons_append, List.headD_cons, List.foldl_append, List.foldl_cons,
      List.foldl_nil, minStep_nan_val, maxStep_nan_val]

/-- Witness for C9: the replaced-only-when-strictly-comparable implications
discharged at concrete comparable inputs (min: accumulator 2, value 1; max:
accumulator 1, value 2). -/
theorem c9_nan_minmax_witness :
    ((∃ a b : ℚ, EDouble.fin (2 : ℚ) = EDouble.fin a ∧ EDouble.fin (1 : ℚ) = EDouble.fin b ∧ b < a)
      ∧ minStep (EDouble.fin 2) (EDouble.fin 1) = EDouble.fin 1)
    ∧ ((∃ a b : ℚ, EDouble.fin (1 : ℚ) = EDouble.fin a ∧ EDouble.fin (2 : ℚ) = EDouble.fin b ∧ a < b)
      ∧ maxStep (EDouble.fin 1) (EDouble.fin 2) = EDouble.fin 2) :=
  ⟨c9_nan_minmax.2.2.2.2.1 (EDouble.fin 2) (EDouble.fin 1) (by decide),
    c9_nan_minmax.2.2.2.2.2.1 (EDouble.fin 1) (EDouble.fin 2) (by decide)⟩

/-- C10 (implicit): if the argument following -p (or --precision) is not a
parseable integer (so `atoi` yields 0, which lies inside the accepted 0..10
range), the program silently uses precision 0 with no warning and no error —
the parse from that point is literally the same as for an explicit "-p 0",
continuing with precision 0 and prepending no warning. -/
theorem c10_malformed_precision (config : Config) (value : String) (rest : List String)
    (h : atoi value = 0) :
    parse_args config ("-p" :: value :: rest) = parse_args config ("-p" :: "0" :: rest)
    ∧ parse_args config ("-p" :: value :: rest) = parse_args { config with precision := 0 } rest := by
  have hstep : parse_args config ("-p" :: value :: rest)
      = parse_args { config with precision := 0 } rest := by
    simp only [parse_args]
    rw [if_neg (by decide), if_neg (by decide), if_pos (by decide)]
    rw [if_neg (by rw [h]; norm_num), h]
  have hzero : parse_args config ("-p" :: "0" :: rest)
      = parse_args { config with precision := 0 } rest := by
    simp only [parse_args]
    rw [if_neg (by decide), if_neg (by decide), if_pos (by decide)]
    rw [if_neg (by norm_num [show atoi "0" = 0 from rfl]),
      show atoi "0" = 0 from rfl]
  exact ⟨hstep.trans hzero.symm, hstep⟩

/-- Witness for C10: the hypothesis discharged at the concrete malformed
argument "abc", whose `atoi` value is 0. -/
theorem c10_malformed_precision_witness :
    atoi "abc" = 0
    ∧ (parse_args defaultConfig ("-p" :: "abc" :: []) = parse_args defaultConfig ("-p" :: "0" :: [])
      ∧ parse_args defaultConfig ("-p" :: "abc" :: [])
        = parse_args { defaultConfig with precision := 0 } []) :=
  ⟨by decide, c10_malformed_precision defaultConfig "abc" [] (by decide)⟩

end Numstat
